import Mathlib

/-!
Verification of the icor icon codec.

A shallow embedding of src/index.js, a codec for the Windows ICO and Apple
ICNS icon container formats, together with proofs of its specified
properties.

Buffers are modelled as lists of natural numbers (byte values); the
fixed-width integer writes of the source (writeUInt8, writeUInt16LE,
writeUInt32LE, writeUInt32BE) become explicit digit lists with modular
reduction, and the corresponding reads recombine digits.  Fallible
operations (the JavaScript functions throw) return Except values, with one
error constructor per distinct throw site of the source.  The source
encoders allocate one output buffer and write disjoint, tiling regions
(header, then directory entries, then payloads); the embedding writes the
same bytes as a concatenation of those regions.
-/

namespace Icor

/-! ## Byte-level primitives -/

/-- Byte of a buffer at an index; out-of-range reads give 0, matching reads
from the zero-filled regions the source never reaches past its own bounds
checks. -/
def byteAt (l : List Nat) (i : Nat) : Nat := l.getD i 0

/-- Model of buffer.readUInt8. -/
def readUInt8 (buf : List Nat) (off : Nat) : Nat := byteAt buf off

/-- Model of buffer.readUInt16LE. -/
def readUInt16LE (buf : List Nat) (off : Nat) : Nat :=
  byteAt buf off + 256 * byteAt buf (off + 1)

/-- Model of buffer.readUInt32LE. -/
def readUInt32LE (buf : List Nat) (off : Nat) : Nat :=
  byteAt buf off + 2 ^ 8 * byteAt buf (off + 1) + 2 ^ 16 * byteAt buf (off + 2)
    + 2 ^ 24 * byteAt buf (off + 3)

/-- Model of buffer.readUInt32BE. -/
def readUInt32BE (buf : List Nat) (off : Nat) : Nat :=
  2 ^ 24 * byteAt buf off + 2 ^ 16 * byteAt buf (off + 1)
    + 2 ^ 8 * byteAt buf (off + 2) + byteAt buf (off + 3)

/-- Bytes written by writeUInt16LE. -/
def u16le (v : Nat) : List Nat := [v % 256, v / 256 % 256]

/-- Bytes written by writeUInt32LE. -/
def u32le (v : Nat) : List Nat :=
  [v % 256, v / 2 ^ 8 % 256, v / 2 ^ 16 % 256, v / 2 ^ 24 % 256]

/-- Bytes written by writeUInt32BE. -/
def u32be (v : Nat) : List Nat :=
  [v / 2 ^ 24 % 256, v / 2 ^ 16 % 256, v / 2 ^ 8 % 256, v % 256]

/-- Bytes of a short ASCII string, as written by Buffer.from(s, "ascii")
and buffer.write(s). -/
def tagBytes (s : String) : List Nat := s.toList.map (fun c => c.toNat % 256)

/-- String read back by buffer.toString("ascii", ...): Node strips the high
bit of each byte before interpreting it as a character. -/
def asciiDecode (bytes : List Nat) : String :=
  String.mk (bytes.map (fun b => Char.ofNat (b % 128)))

/-! ## Data model

JavaScript callers pass plain objects whose properties may be absent, and
whose data property may or may not be a Buffer; the validator inspects
exactly these two aspects, so the input model records each relevant
property as an Option and data as either a byte buffer or some other
value. -/

/-- A JavaScript value in the data property: either a Buffer or anything
else (the validator only distinguishes these two cases). -/
inductive JsVal where
  | buf (bytes : List Nat)
  | other
deriving DecidableEq

/-- The property names the validator is asked to check. -/
inductive FieldName where
  | width
  | height
  | size
  | data
deriving DecidableEq

/-- A caller-supplied image object, with possibly missing properties. -/
structure ImageInput where
  width? : Option Nat
  height? : Option Nat
  size? : Option Nat
  data? : Option JsVal
deriving DecidableEq

/-- Property presence test, modelling the JavaScript prop-in-img check. -/
def ImageInput.hasField (img : ImageInput) : FieldName → Bool
  | .width => img.width?.isSome
  | .height => img.height?.isSome
  | .size => img.size?.isSome
  | .data => img.data?.isSome

/-- Model of Buffer.isBuffer(img.data). -/
def ImageInput.isBufferData (img : ImageInput) : Bool :=
  match img.data? with
  | some (.buf _) => true
  | _ => false

/-- The bytes of the data property (meaningful once isBufferData holds). -/
def ImageInput.bufData (img : ImageInput) : List Nat :=
  match img.data? with
  | some (.buf b) => b
  | _ => []

/-- A fully-formed ICO image descriptor, as read by compileIco after
validation. -/
structure IcoImage where
  width : Nat
  height : Nat
  data : List Nat
deriving DecidableEq

/-- A fully-formed ICNS image descriptor, as read by compileIcns after
validation. -/
structure IcnsImage where
  size : Nat
  data : List Nat
deriving DecidableEq

/-- View of an input as an ICO descriptor (property accesses of the
source after validation has ensured presence). -/
def ImageInput.toIco (img : ImageInput) : IcoImage :=
  { width := img.width?.getD 0, height := img.height?.getD 0, data := img.bufData }

/-- View of an input as an ICNS descriptor. -/
def ImageInput.toIcns (img : ImageInput) : IcnsImage :=
  { size := img.size?.getD 0, data := img.bufData }

/-- A fully-formed ICO descriptor as a caller object with all properties
present and a Buffer in data. -/
def icoInput (im : IcoImage) : ImageInput :=
  { width? := some im.width, height? := some im.height, size? := none,
    data? := some (.buf im.data) }

/-- A fully-formed ICNS descriptor as a caller object. -/
def icnsInput (im : IcnsImage) : ImageInput :=
  { width? := none, height? := none, size? := some im.size,
    data? := some (.buf im.data) }

/-- One error constructor per distinct throw site of src/index.js. -/
inductive IcorError where
  | emptyInput
  | missingField (index : Nat) (field : FieldName)
  | invalidDataType (index : Nat)
  | icoHeaderTooSmall
  | invalidReservedField
  | invalidImageType
  | noImages
  | directoryTruncated
  | imageDataOutOfBounds
  | noValidImages
  | icnsHeaderTooSmall
  | invalidMagic
  | declaredSizeExceedsBuffer
  | chunkHeaderTruncated
  | invalidChunkLength (chunkType : String)
  | chunkDataOutOfBounds
deriving DecidableEq

/-! ## Validator (validateImages, src/index.js lines 17 to 35) -/

/-- First required property missing from an image, in requiredProps order
(the inner forEach throws at the first absent property). -/
def findMissing (img : ImageInput) (props : List FieldName) : Option FieldName :=
  props.find? (fun p => !(img.hasField p))

/-- Validation of one image at a given index: required properties first,
then the Buffer.isBuffer check on data. -/
def validateOne (index : Nat) (img : ImageInput) (props : List FieldName) :
    Except IcorError Unit :=
  match findMissing img props with
  | some p => .error (.missingField index p)
  | none => if img.isBufferData then .ok () else .error (.invalidDataType index)

/-- The outer forEach of validateImages, carrying the current index. -/
def validateFrom (i : Nat) (images : List ImageInput) (props : List FieldName) :
    Except IcorError Unit :=
  match images with
  | [] => .ok ()
  | img :: rest =>
    match validateOne i img props with
    | .error e => .error e
    | .ok _ => validateFrom (i + 1) rest props

/-- Model of validateImages. -/
def validateImages (images : List ImageInput) (props : List FieldName) :
    Except IcorError Unit :=
  if images.length = 0 then .error .emptyInput
  else validateFrom 0 images props

/-! ## ICO encoder (compileIco, src/index.js lines 54 to 102) -/

/-- The one-byte width/height encoding: 256 and 512 are stored as 0, every
other value is stored as itself. -/
def icoDimByte (d : Nat) : Nat := if d = 256 ∨ d = 512 then 0 else d

/-- The 6-byte ICO header: reserved u16 0, type u16 1, image count u16. -/
def icoHeaderBytes (n : Nat) : List Nat := 0 :: 0 :: 1 :: 0 :: u16le n

/-- One 16-byte directory entry: width byte, height byte, palette 0,
reserved 0, planes u16 1, bpp u16 32, data size u32, data offset u32. -/
def icoEntry (im : IcoImage) (off : Nat) : List Nat :=
  icoDimByte im.width :: icoDimByte im.height :: 0 :: 0 ::
    (u16le 1 ++ u16le 32 ++ u32le im.data.length ++ u32le off)

/-- The directory entries in input order, with the running data offset
starting right after the directory. -/
def icoEntries : List IcoImage → Nat → List Nat
  | [], _ => []
  | im :: rest, off => icoEntry im off ++ icoEntries rest (off + im.data.length)

/-- The concatenated payloads, in input order. -/
def icoBody : List IcoImage → List Nat
  | [] => []
  | im :: rest => im.data ++ icoBody rest

/-- The complete ICO file for validated images: the source writes these
three regions (header, directory, payloads) at tiling offsets into one
buffer of exactly this length that starts out all zero. -/
def compileIcoCore (imgs : List IcoImage) : List Nat :=
  icoHeaderBytes imgs.length ++ icoEntries imgs (6 + imgs.length * 16) ++ icoBody imgs

/-- Length of the buffer compileIco allocates. -/
def icoTotalSize (imgs : List IcoImage) : Nat :=
  6 + imgs.length * 16 + (icoBody imgs).length

/-- Model of compileIco: validate, then serialize. -/
def compileIco (images : List ImageInput) : Except IcorError (List Nat) :=
  match validateImages images [.width, .height, .data] with
  | .error e => .error e
  | .ok _ => .ok (compileIcoCore (images.map ImageInput.toIco))

/-! ## ICNS encoder (compileIcns, src/index.js lines 119 to 155) -/

/-- The sizeToType lookup table of compileIcns. -/
def sizeToType (size : Nat) : Option String :=
  if size = 16 then some "icp3"
  else if size = 32 then some "icp4"
  else if size = 64 then some "icp6"
  else if size = 128 then some "ic07"
  else if size = 256 then some "ic08"
  else if size = 512 then some "ic09"
  else if size = 1024 then some "ic10"
  else none

/-- The permissive filter of compileIcns: a recognized size and a
non-empty payload. -/
def icnsKeep (im : IcnsImage) : Bool :=
  (sizeToType im.size).isSome && decide (0 < im.data.length)

/-- One ICNS chunk: 4-byte ASCII tag, u32 BE length (payload + 8), payload. -/
def icnsChunkBytes (im : IcnsImage) : List Nat :=
  tagBytes ((sizeToType im.size).getD "") ++ u32be (im.data.length + 8) ++ im.data

/-- All chunks, in filtered input order. -/
def icnsChunksBytes : List IcnsImage → List Nat
  | [] => []
  | im :: rest => icnsChunkBytes im ++ icnsChunksBytes rest

/-- The total file size: 8-byte header plus the chunk lengths. -/
def icnsTotalSize (imgs : List IcnsImage) : Nat := 8 + (icnsChunksBytes imgs).length

/-- The complete ICNS file for a list of kept images: "icns", u32 BE total
size, then the chunks. -/
def icnsBytes (imgs : List IcnsImage) : List Nat :=
  tagBytes "icns" ++ u32be (icnsTotalSize imgs) ++ icnsChunksBytes imgs

/-- Model of compileIcns: validate, filter, fail if nothing is left,
otherwise serialize the kept images. -/
def compileIcns (images : List ImageInput) : Except IcorError (List Nat) :=
  match validateImages images [.size, .data] with
  | .error e => .error e
  | .ok _ =>
    let valid := (images.map ImageInput.toIcns).filter icnsKeep
    if valid.length = 0 then .error .noValidImages
    else .ok (icnsBytes valid)

/-! ## ICO decoder (parseIco, src/index.js lines 173 to 263) -/

/-- The inverse dimension mapping of the decoder: readUInt8(...) or-else
256, so an on-disk 0 becomes 256. -/
def icoDecodeDim (b : Nat) : Nat := if b = 0 then 256 else b

/-- One parsed directory entry. -/
structure IcoDirEntry where
  width : Nat
  height : Nat
  colorPalette : Nat
  reserved : Nat
  colorPlanes : Nat
  bpp : Nat
  dataSize : Nat
  dataOffset : Nat
deriving DecidableEq

/-- Reading the 16-byte directory entry number i.  The source reads each
field at absolute offset 6 + i * 16 + c; reading at offset c of the
buffer with its first 6 + i * 16 bytes dropped reads the same bytes. -/
def readIcoEntry (buf : List Nat) (i : Nat) : IcoDirEntry :=
  let e := buf.drop (6 + i * 16)
  { width := icoDecodeDim (readUInt8 e 0)
  , height := icoDecodeDim (readUInt8 e 1)
  , colorPalette := readUInt8 e 2
  , reserved := readUInt8 e 3
  , colorPlanes := readUInt16LE e 4
  , bpp := readUInt16LE e 6
  , dataSize := readUInt32LE e 8
  , dataOffset := readUInt32LE e 12 }

/-- The directory-reading for loop: entries k, k+1, ... for n iterations. -/
def readEntriesAux (buf : List Nat) : Nat → Nat → List IcoDirEntry
  | _, 0 => []
  | k, n + 1 => readIcoEntry buf k :: readEntriesAux buf (k + 1) n

/-- One decoded ICO image: entry metadata plus a view of the payload. -/
structure ParsedIcoImage where
  width : Nat
  height : Nat
  bpp : Nat
  dataSize : Nat
  data : List Nat
deriving DecidableEq

/-- The image-extraction loop: bounds check then subarray view, stopping
at the first out-of-bounds entry. -/
def icoImagesOf (buf : List Nat) : List IcoDirEntry → Except IcorError (List ParsedIcoImage)
  | [] => .ok []
  | e :: rest =>
    if e.dataOffset + e.dataSize > buf.length then .error .imageDataOutOfBounds
    else
      match icoImagesOf buf rest with
      | .error err => .error err
      | .ok tail =>
        .ok ({ width := e.width, height := e.height, bpp := e.bpp,
               dataSize := e.dataSize,
               data := (buf.drop e.dataOffset).take e.dataSize } :: tail)

/-- The object parseIco returns. -/
structure ParsedIco where
  images : List ParsedIcoImage
deriving DecidableEq

/-- One row of getInfo for ICO. -/
structure IcoInfo where
  width : Nat
  height : Nat
  bpp : Nat
  dataSize : Nat
deriving DecidableEq

/-- getImage(width, height): data of the first image with both dimensions
equal, or null. -/
def ParsedIco.getImage (p : ParsedIco) (width height : Nat) : Option (List Nat) :=
  (p.images.find? (fun im => im.width == width && im.height == height)).map
    (fun im => im.data)

/-- getInfo(): metadata rows in parse order; dataSize is the length of the
stored view. -/
def ParsedIco.getInfo (p : ParsedIco) : List IcoInfo :=
  p.images.map (fun im => ⟨im.width, im.height, im.bpp, im.data.length⟩)

/-- Model of parseIco. -/
def parseIco (buf : List Nat) : Except IcorError ParsedIco :=
  if buf.length < 6 then .error .icoHeaderTooSmall
  else if readUInt16LE buf 0 ≠ 0 then .error .invalidReservedField
  else if readUInt16LE buf 2 ≠ 1 then .error .invalidImageType
  else
    let numImages := readUInt16LE buf 4
    if numImages = 0 then .error .noImages
    else if buf.length < 6 + numImages * 16 then .error .directoryTruncated
    else
      match icoImagesOf buf (readEntriesAux buf 0 numImages) with
      | .error e => .error e
      | .ok images => .ok ⟨images⟩

/-! ## ICNS decoder (parseIcns, src/index.js lines 281 to 356) -/

/-- The typeToSize lookup table of parseIcns. -/
def typeToSize (t : String) : Option Nat :=
  if t = "icp3" then some 16
  else if t = "icp4" then some 32
  else if t = "icp6" then some 64
  else if t = "ic07" then some 128
  else if t = "ic08" then some 256
  else if t = "ic09" then some 512
  else if t = "ic10" then some 1024
  else none

/-- One decoded ICNS chunk: tag, mapped size (none for unknown tags), and
a view of the payload. -/
structure ParsedIcnsChunk where
  chunkType : String
  size : Option Nat
  data : List Nat
deriving DecidableEq

/-- The chunk-scanning while loop of parseIcns.  The source loop advances
offset by chunkLength, at least 8, per iteration, so totalSize iterations
always suffice; the fuel argument bounds iterations to keep the recursion
structural.  Reads at offset + c are taken from the buffer with its first
offset bytes dropped, which reads the same bytes. -/
def parseIcnsChunksFuel (buf : List Nat) (totalSize : Nat) :
    Nat → Nat → Except IcorError (List ParsedIcnsChunk)
  | 0, _ => .ok []
  | fuel + 1, offset =>
    if offset < totalSize then
      if offset + 8 > buf.length then .error .chunkHeaderTruncated
      else
        let chunk := buf.drop offset
        let ty := asciiDecode (chunk.take 4)
        let chunkLength := readUInt32BE chunk 4
        if chunkLength < 8 then .error (.invalidChunkLength ty)
        else if offset + chunkLength > buf.length then .error .chunkDataOutOfBounds
        else
          match parseIcnsChunksFuel buf totalSize fuel (offset + chunkLength) with
          | .error e => .error e
          | .ok rest =>
            .ok ({ chunkType := ty, size := typeToSize ty,
                   data := (chunk.drop 8).take (chunkLength - 8) } :: rest)
    else .ok []

/-- The object parseIcns returns. -/
structure ParsedIcns where
  images : List ParsedIcnsChunk
deriving DecidableEq

/-- One row of getInfo for ICNS. -/
structure IcnsInfo where
  chunkType : String
  size : Option Nat
  dataSize : Nat
deriving DecidableEq

/-- getImage(size): data of the first chunk whose mapped size matches, or
null (a null size never equals a number). -/
def ParsedIcns.getImage (p : ParsedIcns) (size : Nat) : Option (List Nat) :=
  (p.images.find? (fun im => im.size == some size)).map (fun im => im.data)

/-- getInfo(): one row per chunk, unknown-type chunks included. -/
def ParsedIcns.getInfo (p : ParsedIcns) : List IcnsInfo :=
  p.images.map (fun im => ⟨im.chunkType, im.size, im.data.length⟩)

/-- Model of parseIcns. -/
def parseIcns (buf : List Nat) : Except IcorError ParsedIcns :=
  if buf.length < 8 then .error .icnsHeaderTooSmall
  else if asciiDecode (buf.take 4) ≠ "icns" then .error .invalidMagic
  else
    let totalSize := readUInt32BE buf 4
    if totalSize > buf.length then .error .declaredSizeExceedsBuffer
    else
      match parseIcnsChunksFuel buf totalSize totalSize 8 with
      | .error e => .error e
      | .ok images => .ok ⟨images⟩

/-! ## Verification-side definitions

Named values the theorems below relate the codec functions to. -/

/-- The directory entry the decoder recovers for an image encoded with a
given data offset. -/
def expectedIcoEntry (im : IcoImage) (off : Nat) : IcoDirEntry :=
  { width := icoDecodeDim (icoDimByte im.width)
  , height := icoDecodeDim (icoDimByte im.height)
  , colorPalette := 0
  , reserved := 0
  , colorPlanes := 1
  , bpp := 32
  , dataSize := im.data.length % 2 ^ 32
  , dataOffset := off % 2 ^ 32 }

/-- The directory the decoder recovers, with running offsets. -/
def expectedEntries : List IcoImage → Nat → List IcoDirEntry
  | [], _ => []
  | im :: rest, off => expectedIcoEntry im off :: expectedEntries rest (off + im.data.length)

/-- The decoded image corresponding to an encoded descriptor. -/
def icoParsedOf (im : IcoImage) : ParsedIcoImage :=
  { width := icoDecodeDim (icoDimByte im.width)
  , height := icoDecodeDim (icoDimByte im.height)
  , bpp := 32
  , dataSize := im.data.length
  , data := im.data }

/-- The chunk a decoder recovers for an encoded descriptor with a
recognized size. -/
def icnsParsedOf (im : IcnsImage) : ParsedIcnsChunk :=
  { chunkType := (sizeToType im.size).getD ""
  , size := some im.size
  , data := im.data }

/-- The descriptor rebuilt from a decoded ICO image. -/
def icoReDim (im : IcoImage) : IcoImage :=
  ⟨icoDecodeDim (icoDimByte im.width), icoDecodeDim (icoDimByte im.height), im.data⟩

/-- The images compileIcns keeps: recognized size and non-empty payload. -/
def icnsKept (images : List ImageInput) : List IcnsImage :=
  (images.map ImageInput.toIcns).filter icnsKeep

/-- A width or height the source encoder can write as a single byte. -/
def validIcoDim (d : Nat) : Prop := d ≤ 255 ∨ d = 256 ∨ d = 512

instance (d : Nat) : Decidable (validIcoDim d) := by
  unfold validIcoDim
  infer_instance

/-! ## Round-trip compositions used by the claims -/

/-- decodeIco after encodeIco. -/
def icoRoundTrip (images : List ImageInput) : Except IcorError ParsedIco :=
  (compileIco images).bind parseIco

/-- decodeIcns after encodeIcns. -/
def icnsRoundTrip (images : List ImageInput) : Except IcorError ParsedIcns :=
  (compileIcns images).bind parseIcns

end Icor


namespace Icor

/-! ## Byte-level lemmas -/

theorem byteAt_nil (i : Nat) : byteAt [] i = 0 := by cases i <;> rfl

theorem byteAt_cons_succ (x : Nat) (l : List Nat) (i : Nat) :
    byteAt (x :: l) (i + 1) = byteAt l i := rfl

theorem byteAt_append_right : ∀ (a b : List Nat) (i : Nat),
    byteAt (a ++ b) (a.length + i) = byteAt b i
  | [], b, i => by rw [List.nil_append, List.length_nil, Nat.zero_add]
  | x :: xs, b, i => by
    rw [List.cons_append, List.length_cons, Nat.add_right_comm, byteAt_cons_succ]
    exact byteAt_append_right xs b i

theorem byteAt_drop : ∀ (l : List Nat) (n i : Nat),
    byteAt (l.drop n) i = byteAt l (n + i)
  | _, 0, _ => by rw [List.drop_zero, Nat.zero_add]
  | [], n + 1, i => by rw [List.drop_nil, byteAt_nil, byteAt_nil]
  | x :: xs, n + 1, i => by
    rw [List.drop_succ_cons, byteAt_drop xs n i, Nat.add_right_comm, byteAt_cons_succ]

/-- Reading back a little-endian 16-bit write recovers the value mod 2^16. -/
theorem readUInt16LE_u16le (v : Nat) (rest : List Nat) :
    readUInt16LE (u16le v ++ rest) 0 = v % 65536 := by
  show v % 256 + 256 * (v / 256 % 256) = v % 65536
  omega

/-- Reading back a little-endian 32-bit write recovers the value mod 2^32. -/
theorem readUInt32LE_u32le (v : Nat) (rest : List Nat) :
    readUInt32LE (u32le v ++ rest) 0 = v % 2 ^ 32 := by
  show v % 256 + 2 ^ 8 * (v / 2 ^ 8 % 256) + 2 ^ 16 * (v / 2 ^ 16 % 256)
      + 2 ^ 24 * (v / 2 ^ 24 % 256) = v % 2 ^ 32
  omega

/-- Reading back a big-endian 32-bit write recovers the value mod 2^32. -/
theorem readUInt32BE_u32be (v : Nat) (rest : List Nat) :
    readUInt32BE (u32be v ++ rest) 0 = v % 2 ^ 32 := by
  show 2 ^ 24 * (v / 2 ^ 24 % 256) + 2 ^ 16 * (v / 2 ^ 16 % 256)
      + 2 ^ 8 * (v / 2 ^ 8 % 256) + v % 256 = v % 2 ^ 32
  omega

@[simp] theorem length_icoHeaderBytes (n : Nat) : (icoHeaderBytes n).length = 6 := rfl

@[simp] theorem length_icoEntry (im : IcoImage) (off : Nat) :
    (icoEntry im off).length = 16 := rfl

@[simp] theorem length_icoEntries : ∀ (imgs : List IcoImage) (off : Nat),
    (icoEntries imgs off).length = imgs.length * 16
  | [], _ => rfl
  | im :: rest, off => by
    rw [icoEntries, List.length_append, length_icoEntry,
      length_icoEntries rest _, List.length_cons]
    ring

theorem length_icoBody_cons (im : IcoImage) (rest : List IcoImage) :
    (icoBody (im :: rest)).length = im.data.length + (icoBody rest).length := by
  rw [icoBody, List.length_append]

theorem length_compileIcoCore (imgs : List IcoImage) :
    (compileIcoCore imgs).length = icoTotalSize imgs := by
  simp only [compileIcoCore, icoTotalSize, List.length_append,
    length_icoHeaderBytes, length_icoEntries]

/-- Dropping the length of the first summand of an append leaves the
second summand. -/
theorem drop_of_length_eq (a b : List Nat) (n : Nat) (h : a.length = n) :
    (a ++ b).drop n = b := by
  subst h
  exact List.drop_left _ _

/-- Taking the length of the first summand of an append yields it. -/
theorem take_of_length_eq (a b : List Nat) (n : Nat) (h : a.length = n) :
    (a ++ b).take n = a := by
  subst h
  exact List.take_left _ _

/-! ## ICO round trip -/


/-- Reading directory entry k recovers the serialized fields when the
buffer from offset 6 + k * 16 on starts with the bytes of that entry. -/
theorem readIcoEntry_of_drop (buf : List Nat) (k : Nat) (im : IcoImage) (off : Nat)
    (rest : List Nat) (h : buf.drop (6 + k * 16) = icoEntry im off ++ rest) :
    readIcoEntry buf k = expectedIcoEntry im off := by
  simp only [readIcoEntry]
  rw [h]
  simp only [expectedIcoEntry, IcoDirEntry.mk.injEq]
  refine ⟨rfl, rfl, rfl, rfl, rfl, rfl, ?_, ?_⟩
  · show im.data.length % 256 + 2 ^ 8 * (im.data.length / 2 ^ 8 % 256)
        + 2 ^ 16 * (im.data.length / 2 ^ 16 % 256)
        + 2 ^ 24 * (im.data.length / 2 ^ 24 % 256) = im.data.length % 2 ^ 32
    omega
  · show off % 256 + 2 ^ 8 * (off / 2 ^ 8 % 256) + 2 ^ 16 * (off / 2 ^ 16 % 256)
        + 2 ^ 24 * (off / 2 ^ 24 % 256) = off % 2 ^ 32
    omega

/-- The directory-reading loop recovers all serialized entries. -/
theorem readEntriesAux_expected : ∀ (imgs : List IcoImage) (k off : Nat)
    (buf tail : List Nat),
    buf.drop (6 + k * 16) = icoEntries imgs off ++ tail →
    readEntriesAux buf k imgs.length = expectedEntries imgs off
  | [], _, _, _, _, _ => rfl
  | im :: rest, k, off, buf, tail, h => by
    have hh : buf.drop (6 + k * 16)
        = icoEntry im off ++ (icoEntries rest (off + im.data.length) ++ tail) := by
      rw [h, icoEntries, List.append_assoc]
    have hd : buf.drop (6 + (k + 1) * 16)
        = icoEntries rest (off + im.data.length) ++ tail := by
      have h16 : 6 + (k + 1) * 16 = (6 + k * 16) + 16 := by ring
      rw [h16, ← List.drop_drop, hh]
      exact drop_of_length_eq _ _ _ (length_icoEntry im off)
    rw [List.length_cons]
    show readIcoEntry buf k :: readEntriesAux buf (k + 1) rest.length
        = expectedIcoEntry im off :: expectedEntries rest (off + im.data.length)
    rw [readIcoEntry_of_drop buf k im off _ hh,
      readEntriesAux_expected rest (k + 1) (off + im.data.length) buf tail hd]

/-- The image-extraction loop succeeds on the recovered directory and
returns the original payloads when the buffer from the first data offset
on is exactly the concatenated payloads. -/
theorem icoImagesOf_expected : ∀ (imgs : List IcoImage) (off : Nat) (buf : List Nat),
    buf.drop off = icoBody imgs → off ≤ buf.length → buf.length < 2 ^ 32 →
    icoImagesOf buf (expectedEntries imgs off) = .ok (imgs.map icoParsedOf)
  | [], _, _, _, _, _ => rfl
  | im :: rest, off, buf, hdrop, hoff, hlt => by
    have hlen : buf.length - off = im.data.length + (icoBody rest).length := by
      have hc := congrArg List.length hdrop
      rw [List.length_drop] at hc
      rw [hc, length_icoBody_cons]
    have hoffmod : off % 2 ^ 32 = off := Nat.mod_eq_of_lt (by omega)
    have hlenmod : im.data.length % 2 ^ 32 = im.data.length :=
      Nat.mod_eq_of_lt (by omega)
    have hdrop2 : buf.drop (off + im.data.length) = icoBody rest := by
      rw [← List.drop_drop, hdrop]
      show (im.data ++ icoBody rest).drop im.data.length = _
      exact drop_of_length_eq _ _ _ rfl
    have htake : (buf.drop off).take im.data.length = im.data := by
      rw [hdrop]
      show (im.data ++ icoBody rest).take im.data.length = _
      exact take_of_length_eq _ _ _ rfl
    rw [expectedEntries, icoImagesOf]
    simp only [expectedIcoEntry, hoffmod, hlenmod]
    rw [if_neg (by omega),
      icoImagesOf_expected rest (off + im.data.length) buf hdrop2 (by omega) hlt,
      htake]
    rfl

/-- Decoding an encoded ICO file recovers all images: dimensions through
the 0-byte collapse and its inverse, bpp 32, and the exact payloads. -/
theorem parseIco_compileIcoCore (imgs : List IcoImage) (hne : imgs ≠ [])
    (hcount : imgs.length ≤ 65535) (htotal : icoTotalSize imgs < 2 ^ 32) :
    parseIco (compileIcoCore imgs) = .ok ⟨imgs.map icoParsedOf⟩ := by
  have hr4 : readUInt16LE (compileIcoCore imgs) 4 = imgs.length := by
    show imgs.length % 256 + 256 * (imgs.length / 256 % 256) = imgs.length
    omega
  have hlen : (compileIcoCore imgs).length = icoTotalSize imgs :=
    length_compileIcoCore imgs
  have hts : icoTotalSize imgs = 6 + imgs.length * 16 + (icoBody imgs).length := rfl
  have hpos : 0 < imgs.length := List.length_pos.mpr hne
  have hdropE : (compileIcoCore imgs).drop (6 + 0 * 16)
      = icoEntries imgs (6 + imgs.length * 16) ++ icoBody imgs := by
    show (icoHeaderBytes imgs.length
        ++ icoEntries imgs (6 + imgs.length * 16) ++ icoBody imgs).drop (6 + 0 * 16) = _
    rw [List.append_assoc]
    exact drop_of_length_eq _ _ _ (by simp)
  have hdropB : (compileIcoCore imgs).drop (6 + imgs.length * 16) = icoBody imgs := by
    show ((icoHeaderBytes imgs.length ++ icoEntries imgs (6 + imgs.length * 16))
        ++ icoBody imgs).drop (6 + imgs.length * 16) = _
    exact drop_of_length_eq _ _ _ (by simp)
  have hentries : readEntriesAux (compileIcoCore imgs) 0 imgs.length
      = expectedEntries imgs (6 + imgs.length * 16) :=
    readEntriesAux_expected imgs 0 (6 + imgs.length * 16) _ (icoBody imgs) hdropE
  have himages : icoImagesOf (compileIcoCore imgs)
      (expectedEntries imgs (6 + imgs.length * 16)) = .ok (imgs.map icoParsedOf) :=
    icoImagesOf_expected imgs (6 + imgs.length * 16) _ hdropB (by omega) (by omega)
  rw [parseIco]
  rw [if_neg (by omega)]
  rw [if_neg (by simp [show readUInt16LE (compileIcoCore imgs) 0 = 0 from rfl])]
  rw [if_neg (by simp [show readUInt16LE (compileIcoCore imgs) 2 = 1 from rfl])]
  simp only [hr4]
  rw [if_neg (by omega), if_neg (by omega), hentries, himages]

end Icor

namespace Icor

/-! ## Validator lemmas -/

theorem validateOne_icoInput (i : Nat) (im : IcoImage) :
    validateOne i (icoInput im) [.width, .height, .data] = .ok () := rfl

theorem validateFrom_icoInput : ∀ (imgs : List IcoImage) (i : Nat),
    validateFrom i (imgs.map icoInput) [.width, .height, .data] = .ok ()
  | [], _ => rfl
  | im :: rest, i => by
    show validateFrom (i + 1) (rest.map icoInput) [.width, .height, .data] = .ok ()
    exact validateFrom_icoInput rest (i + 1)

theorem validateImages_icoInput (imgs : List IcoImage) (h : imgs ≠ []) :
    validateImages (imgs.map icoInput) [.width, .height, .data] = .ok () := by
  rw [validateImages, if_neg (by simp [h])]
  exact validateFrom_icoInput imgs 0

theorem validateOne_icnsInput (i : Nat) (im : IcnsImage) :
    validateOne i (icnsInput im) [.size, .data] = .ok () := rfl

theorem validateFrom_icnsInput : ∀ (imgs : List IcnsImage) (i : Nat),
    validateFrom i (imgs.map icnsInput) [.size, .data] = .ok ()
  | [], _ => rfl
  | im :: rest, i => by
    show validateFrom (i + 1) (rest.map icnsInput) [.size, .data] = .ok ()
    exact validateFrom_icnsInput rest (i + 1)

theorem validateImages_icnsInput (imgs : List IcnsImage) (h : imgs ≠ []) :
    validateImages (imgs.map icnsInput) [.size, .data] = .ok () := by
  rw [validateImages, if_neg (by simp [h])]
  exact validateFrom_icnsInput imgs 0

/-! ## Encoder success on fully-formed inputs -/

theorem toIco_icoInput (im : IcoImage) : ImageInput.toIco (icoInput im) = im := rfl

theorem map_toIco_icoInput : ∀ imgs : List IcoImage,
    (imgs.map icoInput).map ImageInput.toIco = imgs
  | [] => rfl
  | im :: rest => by
    rw [List.map_cons, List.map_cons, toIco_icoInput, map_toIco_icoInput rest]

theorem toIcns_icnsInput (im : IcnsImage) : ImageInput.toIcns (icnsInput im) = im := rfl

theorem map_toIcns_icnsInput : ∀ imgs : List IcnsImage,
    (imgs.map icnsInput).map ImageInput.toIcns = imgs
  | [] => rfl
  | im :: rest => by
    rw [List.map_cons, List.map_cons, toIcns_icnsInput, map_toIcns_icnsInput rest]

/-- compileIco succeeds on any non-empty list of fully-formed descriptors
and produces the serialized file. -/
theorem compileIco_map_icoInput (imgs : List IcoImage) (hne : imgs ≠ []) :
    compileIco (imgs.map icoInput) = .ok (compileIcoCore imgs) := by
  rw [compileIco, validateImages_icoInput imgs hne, map_toIco_icoInput]

/-- compileIcns succeeds and keeps everything when every descriptor passes
the permissive filter. -/
theorem compileIcns_map_icnsInput (imgs : List IcnsImage) (hne : imgs ≠ [])
    (hkeep : ∀ im ∈ imgs, icnsKeep im = true) :
    compileIcns (imgs.map icnsInput) = .ok (icnsBytes imgs) := by
  have hlen0 : imgs.length ≠ 0 := by
    have := List.length_pos.mpr hne
    omega
  have hfilter : imgs.filter icnsKeep = imgs :=
    List.filter_eq_self.mpr (by simpa using hkeep)
  rw [compileIcns, validateImages_icnsInput imgs hne, map_toIcns_icnsInput]
  show (if (imgs.filter icnsKeep).length = 0 then Except.error IcorError.noValidImages
      else Except.ok (icnsBytes (imgs.filter icnsKeep))) = Except.ok (icnsBytes imgs)
  rw [hfilter, if_neg hlen0]

/-! ## Pointwise list helpers -/

theorem map_congr_mem {α β : Type} (f g : α → β) :
    ∀ l : List α, (∀ a ∈ l, f a = g a) → l.map f = l.map g
  | [], _ => rfl
  | a :: l, h => by
    rw [List.map_cons, List.map_cons, h a (by simp),
      map_congr_mem f g l (fun x hx => h x (by simp [hx]))]

theorem find?_congr_mem {α : Type} (p q : α → Bool) :
    ∀ l : List α, (∀ a ∈ l, p a = q a) → l.find? p = l.find? q
  | [], _ => rfl
  | a :: l, h => by
    have ha := h a (by simp)
    cases hq : q a with
    | false =>
      rw [List.find?_cons_of_neg _ (by simp [ha.trans hq]),
        List.find?_cons_of_neg _ (by simp [hq])]
      exact find?_congr_mem p q l (fun x hx => h x (by simp [hx]))
    | true =>
      rw [List.find?_cons_of_pos _ (ha.trans hq), List.find?_cons_of_pos _ hq]

end Icor

namespace Icor

/-! ## ICNS round trip -/

@[simp] theorem length_u16le (v : Nat) : (u16le v).length = 2 := rfl

@[simp] theorem length_u32le (v : Nat) : (u32le v).length = 4 := rfl

@[simp] theorem length_u32be (v : Nat) : (u32be v).length = 4 := rfl

@[simp] theorem length_tagBytes_icns : (tagBytes "icns").length = 4 := rfl

/-- For every row of the size table: the tag is 4 bytes, ASCII-decoding its
bytes gives it back, and the decoder table inverts the encoder table. -/
theorem tag_facts (s : Nat) (t : String) (h : sizeToType s = some t) :
    (tagBytes t).length = 4 ∧ asciiDecode (tagBytes t) = t ∧ typeToSize t = some s := by
  rw [sizeToType] at h
  split_ifs at h with h1 h2 h3 h4 h5 h6 h7
  · injection h with h; subst h; rw [h1]; decide
  · injection h with h; subst h; rw [h2]; decide
  · injection h with h; subst h; rw [h3]; decide
  · injection h with h; subst h; rw [h4]; decide
  · injection h with h; subst h; rw [h5]; decide
  · injection h with h; subst h; rw [h6]; decide
  · injection h with h; subst h; rw [h7]; decide

/-- A chunk for a recognized size is its payload plus the 8 header bytes. -/
theorem length_icnsChunkBytes (im : IcnsImage) (tag : String)
    (h : sizeToType im.size = some tag) :
    (icnsChunkBytes im).length = im.data.length + 8 := by
  rw [icnsChunkBytes, h]
  simp only [Option.getD_some, List.length_append, length_u32be,
    (tag_facts im.size tag h).1]
  omega

/-- Reading a big-endian u32 at offset 4 past a 4-byte prefix. -/
theorem readUInt32BE_append4 (a b : List Nat) (h : a.length = 4) :
    readUInt32BE (a ++ b) 4 = readUInt32BE b 0 := by
  have e0 : byteAt (a ++ b) 4 = byteAt b 0 := by
    have e := byteAt_append_right a b 0
    rwa [h, Nat.add_zero] at e
  have e1 : byteAt (a ++ b) (4 + 1) = byteAt b 1 := by
    have e := byteAt_append_right a b 1
    rwa [h] at e
  have e2 : byteAt (a ++ b) (4 + 2) = byteAt b 2 := by
    have e := byteAt_append_right a b 2
    rwa [h] at e
  have e3 : byteAt (a ++ b) (4 + 3) = byteAt b 3 := by
    have e := byteAt_append_right a b 3
    rwa [h] at e
  rw [readUInt32BE, readUInt32BE, e0, e1, e2, e3]


/-- There are at least as many chunk bytes as chunks. -/
theorem chunk_count_le : ∀ imgs : List IcnsImage,
    (∀ im ∈ imgs, (sizeToType im.size).isSome) →
    imgs.length ≤ (icnsChunksBytes imgs).length
  | [], _ => by simp [icnsChunksBytes]
  | im :: rest, hval => by
    obtain ⟨tag, htag⟩ := Option.isSome_iff_exists.mp (hval im (by simp))
    have hcl := length_icnsChunkBytes im tag htag
    have hr := chunk_count_le rest (fun x hx => hval x (by simp [hx]))
    rw [icnsChunksBytes, List.length_append, List.length_cons]
    omega

/-- The chunk-scanning loop recovers every encoded chunk when the buffer
from the current offset on is exactly the remaining chunk bytes and the
declared total size points at their end. -/
theorem parseIcnsChunksFuel_expected : ∀ (imgs : List IcnsImage)
    (fuel offset totalSize : Nat) (buf : List Nat),
    buf.drop offset = icnsChunksBytes imgs →
    totalSize = offset + (icnsChunksBytes imgs).length →
    totalSize ≤ buf.length →
    buf.length < 2 ^ 32 →
    (∀ im ∈ imgs, (sizeToType im.size).isSome) →
    imgs.length ≤ fuel →
    parseIcnsChunksFuel buf totalSize fuel offset = .ok (imgs.map icnsParsedOf)
  | [], fuel, offset, totalSize, buf, hdrop, htot, hle, hlt, hval, hfuel => by
    have hto : totalSize = offset := by simpa [icnsChunksBytes] using htot
    cases fuel with
    | zero => rfl
    | succ f =>
      simp only [parseIcnsChunksFuel]
      rw [if_neg (by omega)]
      rfl
  | im :: rest, fuel, offset, totalSize, buf, hdrop, htot, hle, hlt, hval, hfuel => by
    obtain ⟨tag, htag⟩ := Option.isSome_iff_exists.mp (hval im (by simp))
    have htagfacts := tag_facts im.size tag htag
    have hcl : (icnsChunkBytes im).length = im.data.length + 8 :=
      length_icnsChunkBytes im tag htag
    have hlen_cons : (icnsChunksBytes (im :: rest)).length
        = (icnsChunkBytes im).length + (icnsChunksBytes rest).length := by
      rw [icnsChunksBytes, List.length_append]
    have htot' : totalSize
        = offset + ((im.data.length + 8) + (icnsChunksBytes rest).length) := by
      rw [htot, hlen_cons, hcl]
    cases fuel with
    | zero => simp at hfuel
    | succ f =>
      have hsplit : buf.drop offset
          = tagBytes tag ++ (u32be (im.data.length + 8)
            ++ (im.data ++ icnsChunksBytes rest)) := by
        rw [hdrop, icnsChunksBytes, icnsChunkBytes, htag]
        simp only [Option.getD_some, List.append_assoc]
      have hlen8 : (tagBytes tag ++ u32be (im.data.length + 8)).length = 8 := by
        rw [List.length_append, htagfacts.1, length_u32be]
      have hsplit8 : buf.drop offset
          = (tagBytes tag ++ u32be (im.data.length + 8))
            ++ (im.data ++ icnsChunksBytes rest) := by
        rw [hsplit, List.append_assoc]
      have hty : asciiDecode ((buf.drop offset).take 4) = tag := by
        rw [hsplit, take_of_length_eq _ _ _ htagfacts.1]
        exact htagfacts.2.1
      have hreadlen : readUInt32BE (buf.drop offset) 4 = im.data.length + 8 := by
        rw [hsplit, readUInt32BE_append4 _ _ htagfacts.1, readUInt32BE_u32be]
        exact Nat.mod_eq_of_lt (by omega)
      have hofflt : offset < totalSize := by omega
      have hhdr : ¬ (offset + 8 > buf.length) := by omega
      have hdroprec : buf.drop (offset + (im.data.length + 8))
          = icnsChunksBytes rest := by
        rw [← List.drop_drop, hdrop, icnsChunksBytes]
        exact drop_of_length_eq _ _ _ hcl
      have hrec := parseIcnsChunksFuel_expected rest f
        (offset + (im.data.length + 8)) totalSize buf hdroprec (by omega) hle hlt
        (fun x hx => hval x (by simp [hx])) (by simp at hfuel; omega)
      have hdata : ((buf.drop offset).drop 8).take (im.data.length + 8 - 8)
          = im.data := by
        rw [hsplit8, drop_of_length_eq _ _ 8 hlen8, Nat.add_sub_cancel]
        exact take_of_length_eq _ _ _ rfl
      simp only [parseIcnsChunksFuel]
      rw [if_pos hofflt, if_neg hhdr]
      simp only [hreadlen, hty]
      rw [if_neg (by omega), if_neg (by omega), hrec, hdata]
      show Except.ok ({ chunkType := tag, size := typeToSize tag, data := im.data }
          :: rest.map icnsParsedOf) = Except.ok ((im :: rest).map icnsParsedOf)
      rw [htagfacts.2.2, List.map_cons]
      simp [icnsParsedOf, htag]

theorem length_icnsBytes (imgs : List IcnsImage) :
    (icnsBytes imgs).length = icnsTotalSize imgs := by
  simp only [icnsBytes, icnsTotalSize, List.length_append, length_u32be,
    length_tagBytes_icns]

/-- Decoding an encoded ICNS file recovers all chunks: tags through the
size table, sizes through its inverse, and the exact payloads. -/
theorem parseIcns_icnsBytes (imgs : List IcnsImage)
    (hval : ∀ im ∈ imgs, (sizeToType im.size).isSome)
    (htotal : icnsTotalSize imgs < 2 ^ 32) :
    parseIcns (icnsBytes imgs) = .ok ⟨imgs.map icnsParsedOf⟩ := by
  have h8 : icnsTotalSize imgs = 8 + (icnsChunksBytes imgs).length := rfl
  have hlenB := length_icnsBytes imgs
  have hmagic : asciiDecode ((icnsBytes imgs).take 4) = "icns" := by
    rw [icnsBytes, List.append_assoc, take_of_length_eq (tagBytes "icns") _ 4 rfl]
    decide
  have hread : readUInt32BE (icnsBytes imgs) 4 = icnsTotalSize imgs := by
    rw [icnsBytes, List.append_assoc, readUInt32BE_append4 (tagBytes "icns") _ rfl,
      readUInt32BE_u32be]
    exact Nat.mod_eq_of_lt htotal
  have hdrop8 : (icnsBytes imgs).drop 8 = icnsChunksBytes imgs := by
    rw [icnsBytes]
    exact drop_of_length_eq _ _ 8 (by simp)
  have hcount := chunk_count_le imgs hval
  rw [parseIcns]
  rw [if_neg (by omega)]
  rw [if_neg (by simp [hmagic])]
  simp only [hread]
  rw [if_neg (by omega)]
  rw [parseIcnsChunksFuel_expected imgs (icnsTotalSize imgs) 8 (icnsTotalSize imgs)
    _ hdrop8 h8 (by omega) (by omega) hval (by omega)]

end Icor

namespace Icor

/-! ## Dimension byte facts -/

/-- For 1..255, encoding then decoding a dimension is the identity. -/
theorem dim_roundtrip_id (d : Nat) (h1 : 1 ≤ d) (h2 : d ≤ 255) :
    icoDecodeDim (icoDimByte d) = d := by
  rw [icoDimByte, if_neg (by omega), icoDecodeDim, if_neg (by omega)]

/-- Re-encoding a decoded dimension writes the original byte. -/
theorem dimByte_decode_dimByte (d : Nat) :
    icoDimByte (icoDecodeDim (icoDimByte d)) = icoDimByte d := by
  unfold icoDimByte icoDecodeDim
  split_ifs <;> omega

/-! ## Re-encoding -/


theorem icoEntry_reDim (im : IcoImage) (off : Nat) :
    icoEntry (icoReDim im) off = icoEntry im off := by
  simp [icoEntry, icoReDim, dimByte_decode_dimByte]

theorem icoEntries_reDim : ∀ (imgs : List IcoImage) (off : Nat),
    icoEntries (imgs.map icoReDim) off = icoEntries imgs off
  | [], _ => rfl
  | im :: rest, off => by
    rw [List.map_cons, icoEntries, icoEntries, icoEntry_reDim,
      icoEntries_reDim rest]
    rfl

theorem icoBody_reDim : ∀ imgs : List IcoImage,
    icoBody (imgs.map icoReDim) = icoBody imgs
  | [] => rfl
  | im :: rest => by
    rw [List.map_cons, icoBody, icoBody, icoBody_reDim rest]
    rfl

/-- Re-encoding the decoded images reproduces the original ICO bytes. -/
theorem compileIcoCore_reDim (imgs : List IcoImage) :
    compileIcoCore (imgs.map icoReDim) = compileIcoCore imgs := by
  rw [compileIcoCore, compileIcoCore, List.length_map, icoEntries_reDim,
    icoBody_reDim]

/-! ## Branch behavior of the ICO image-extraction loop -/

/-- The extraction loop fails at the first out-of-bounds entry. -/
theorem icoImagesOf_oob (buf : List Nat) :
    ∀ (pre : List IcoDirEntry) (e : IcoDirEntry) (post : List IcoDirEntry),
    (∀ d ∈ pre, d.dataOffset + d.dataSize ≤ buf.length) →
    e.dataOffset + e.dataSize > buf.length →
    icoImagesOf buf (pre ++ e :: post) = .error .imageDataOutOfBounds
  | [], e, post, _, hbad => by
    rw [List.nil_append, icoImagesOf, if_pos hbad]
  | d :: pre, e, post, hpre, hbad => by
    rw [List.cons_append, icoImagesOf,
      if_neg (by have := hpre d (by simp); omega),
      icoImagesOf_oob buf pre e post (fun x hx => hpre x (by simp [hx])) hbad]

/-- The extraction loop succeeds on an all-in-bounds directory and returns
one view per entry. -/
theorem icoImagesOf_ok (buf : List Nat) :
    ∀ entries : List IcoDirEntry,
    (∀ d ∈ entries, d.dataOffset + d.dataSize ≤ buf.length) →
    icoImagesOf buf entries
      = .ok (entries.map (fun e =>
          { width := e.width, height := e.height, bpp := e.bpp,
            dataSize := e.dataSize,
            data := (buf.drop e.dataOffset).take e.dataSize }))
  | [], _ => rfl
  | e :: rest, hok => by
    rw [icoImagesOf, if_neg (by have := hok e (by simp); omega),
      icoImagesOf_ok buf rest (fun x hx => hok x (by simp [hx])), List.map_cons]

/-! ## Validator branch behavior -/

theorem validateOne_missing (i : Nat) (im : ImageInput) (props : List FieldName)
    (p : FieldName) (h : findMissing im props = some p) :
    validateOne i im props = .error (.missingField i p) := by
  rw [validateOne, h]

theorem validateOne_ok (i : Nat) (im : ImageInput) (props : List FieldName)
    (h1 : findMissing im props = none) (h2 : im.isBufferData = true) :
    validateOne i im props = .ok () := by
  rw [validateOne, h1]
  show (if im.isBufferData = true then Except.ok ()
    else Except.error (IcorError.invalidDataType i))
    = (Except.ok () : Except IcorError Unit)
  rw [if_pos h2]

/-- The outer validation loop reports the first image with a missing
required field, at its index, before any data-type consideration for that
image. -/
theorem validateFrom_missing : ∀ (i : Nat) (pre : List ImageInput)
    (img : ImageInput) (post : List ImageInput) (props : List FieldName)
    (p : FieldName),
    (∀ im ∈ pre, findMissing im props = none ∧ im.isBufferData = true) →
    findMissing img props = some p →
    validateFrom i (pre ++ img :: post) props
      = .error (.missingField (i + pre.length) p)
  | i, [], img, post, props, p, _, hmiss => by
    rw [List.nil_append]
    show (match validateOne i img props with
      | Except.error e => Except.error e
      | Except.ok _ => validateFrom (i + 1) post props)
      = (Except.error (IcorError.missingField (i + ([] : List ImageInput).length) p)
        : Except IcorError Unit)
    rw [validateOne_missing i img props p hmiss]
    rfl
  | i, im0 :: pre, img, post, props, p, hpre, hmiss => by
    have h0 := hpre im0 (by simp)
    rw [List.cons_append]
    show (match validateOne i im0 props with
      | Except.error e => Except.error e
      | Except.ok _ => validateFrom (i + 1) (pre ++ img :: post) props)
      = (Except.error (IcorError.missingField (i + (im0 :: pre).length) p)
        : Except IcorError Unit)
    rw [validateOne_ok i im0 props h0.1 h0.2,
      validateFrom_missing (i + 1) pre img post props p
        (fun x hx => hpre x (by simp [hx])) hmiss]
    show Except.error (IcorError.missingField (i + 1 + pre.length) p)
      = Except.error (IcorError.missingField (i + (im0 :: pre).length) p)
    rw [List.length_cons, show i + 1 + pre.length = i + (pre.length + 1) from by omega]

end Icor

namespace Icor

/-! ## Claim C1 -/

/-- C1 counterexample: the claim quantifies over every list of descriptors
with dimensions in 1..255, but on the empty list the encoder itself fails
(the validator requires at least one image), so the round trip yields an
error rather than an empty getInfo listing. -/
theorem C1_counterexample : icoRoundTrip [] = .error IcorError.emptyInput := rfl

/-- C1 (amended): for every non-empty list of at most 65535 ICO
descriptors with widths and heights in 1..255 whose total encoded size
fits the 32-bit size and offset fields, decoding the encoding succeeds,
getInfo lists width, height, bpp 32 and dataSize equal to the payload
length in input order, and getImage returns the payload of the first
image in input order with the requested dimensions. -/
theorem C1_ico_roundtrip (imgs : List IcoImage) (hne : imgs ≠ [])
    (hcount : imgs.length ≤ 65535)
    (hdims : ∀ im ∈ imgs,
      (1 ≤ im.width ∧ im.width ≤ 255) ∧ (1 ≤ im.height ∧ im.height ≤ 255))
    (htotal : icoTotalSize imgs < 2 ^ 32) :
    ∃ parsed : ParsedIco,
      icoRoundTrip (imgs.map icoInput) = .ok parsed
      ∧ parsed.getInfo
          = imgs.map (fun im => ⟨im.width, im.height, 32, im.data.length⟩)
      ∧ ∀ w h : Nat, parsed.getImage w h
          = (imgs.find? (fun x => x.width == w && x.height == h)).map
              (fun x => x.data) := by
  refine ⟨⟨imgs.map icoParsedOf⟩, ?_, ?_, ?_⟩
  · rw [icoRoundTrip, compileIco_map_icoInput imgs hne]
    show parseIco (compileIcoCore imgs) = Except.ok ⟨imgs.map icoParsedOf⟩
    exact parseIco_compileIcoCore imgs hne hcount htotal
  · show (imgs.map icoParsedOf).map
        (fun im => IcoInfo.mk im.width im.height im.bpp im.data.length)
      = imgs.map (fun im => IcoInfo.mk im.width im.height 32 im.data.length)
    rw [List.map_map]
    refine map_congr_mem _ _ imgs (fun im hm => ?_)
    have hd := hdims im hm
    show IcoInfo.mk (icoDecodeDim (icoDimByte im.width))
        (icoDecodeDim (icoDimByte im.height)) 32 im.data.length
      = IcoInfo.mk im.width im.height 32 im.data.length
    rw [dim_roundtrip_id _ hd.1.1 hd.1.2, dim_roundtrip_id _ hd.2.1 hd.2.2]
  · intro w h
    show Option.map (fun im => im.data)
        ((imgs.map icoParsedOf).find? (fun im => im.width == w && im.height == h))
      = Option.map (fun x => x.data)
          (imgs.find? (fun x => x.width == w && x.height == h))
    rw [List.find?_map icoParsedOf imgs]
    have hcong : ∀ x ∈ imgs,
        ((fun im => im.width == w && im.height == h) ∘ icoParsedOf) x
        = (fun x => x.width == w && x.height == h) x := by
      intro x hx
      have hd := hdims x hx
      show (icoDecodeDim (icoDimByte x.width) == w
          && icoDecodeDim (icoDimByte x.height) == h)
        = (x.width == w && x.height == h)
      rw [dim_roundtrip_id _ hd.1.1 hd.1.2, dim_roundtrip_id _ hd.2.1 hd.2.2]
    rw [find?_congr_mem _ _ imgs hcong, Option.map_map]
    rfl

/-- C1 witness: the amended round trip at a one-image input. -/
theorem C1_witness :
    ∃ parsed : ParsedIco,
      icoRoundTrip (([⟨1, 1, [7]⟩] : List IcoImage).map icoInput) = .ok parsed
      ∧ parsed.getInfo
          = ([⟨1, 1, [7]⟩] : List IcoImage).map
              (fun im => ⟨im.width, im.height, 32, im.data.length⟩)
      ∧ ∀ w h : Nat, parsed.getImage w h
          = (([⟨1, 1, [7]⟩] : List IcoImage).find?
              (fun x => x.width == w && x.height == h)).map (fun x => x.data) :=
  C1_ico_roundtrip [⟨1, 1, [7]⟩] (by decide) (by decide) (by decide) (by decide)

/-! ## Claim C2 -/

/-- C2: encoding sizes 32 and 256 with non-empty payloads X and Y and
decoding yields exactly the chunks icp4/32/X and ic08/256/Y in order
(the payload bound keeps the 32-bit length fields exact; a Node buffer
cannot exceed it). -/
theorem C2_icns_roundtrip (X Y : List Nat) (hX : X ≠ []) (hY : Y ≠ [])
    (hsize : X.length + Y.length + 24 < 2 ^ 32) :
    icnsRoundTrip (([⟨32, X⟩, ⟨256, Y⟩] : List IcnsImage).map icnsInput)
      = .ok ⟨[⟨"icp4", some 32, X⟩, ⟨"ic08", some 256, Y⟩]⟩ := by
  have hx : 0 < X.length := List.length_pos.mpr hX
  have hy : 0 < Y.length := List.length_pos.mpr hY
  have hne : ([⟨32, X⟩, ⟨256, Y⟩] : List IcnsImage) ≠ [] := by simp
  have hkeep : ∀ im ∈ ([⟨32, X⟩, ⟨256, Y⟩] : List IcnsImage),
      icnsKeep im = true := by
    intro im hm
    simp only [List.mem_cons, List.mem_singleton] at hm
    rcases hm with h | h | h
    · subst h; simp [icnsKeep, sizeToType, hx]
    · subst h; simp [icnsKeep, sizeToType, hy]
    · cases h
  have hval : ∀ im ∈ ([⟨32, X⟩, ⟨256, Y⟩] : List IcnsImage),
      (sizeToType im.size).isSome := by
    intro im hm
    simp only [List.mem_cons, List.mem_singleton] at hm
    rcases hm with h | h | h
    · subst h; simp [sizeToType]
    · subst h; simp [sizeToType]
    · cases h
  have htot : icnsTotalSize ([⟨32, X⟩, ⟨256, Y⟩] : List IcnsImage) < 2 ^ 32 := by
    have h1 : (icnsChunkBytes (⟨32, X⟩ : IcnsImage)).length = X.length + 8 :=
      length_icnsChunkBytes _ "icp4" rfl
    have h2 : (icnsChunkBytes (⟨256, Y⟩ : IcnsImage)).length = Y.length + 8 :=
      length_icnsChunkBytes _ "ic08" rfl
    simp only [icnsTotalSize, icnsChunksBytes, List.length_append,
      List.length_nil, h1, h2]
    omega
  rw [icnsRoundTrip, compileIcns_map_icnsInput _ hne hkeep]
  show parseIcns (icnsBytes [⟨32, X⟩, ⟨256, Y⟩])
    = Except.ok ⟨[⟨"icp4", some 32, X⟩, ⟨"ic08", some 256, Y⟩]⟩
  rw [parseIcns_icnsBytes _ hval htot]
  rfl

/-- C2 witness: the ICNS round trip at one-byte payloads. -/
theorem C2_witness :
    icnsRoundTrip (([⟨32, [1]⟩, ⟨256, [2]⟩] : List IcnsImage).map icnsInput)
      = .ok ⟨[⟨"icp4", some 32, [1]⟩, ⟨"ic08", some 256, [2]⟩]⟩ :=
  C2_icns_roundtrip [1] [2] (by decide) (by decide) (by decide)

/-! ## Claim C3 -/

/-- C3: encoding width 256 and height 256 and decoding yields 256 (never
512); the encoder stores 256 and 512 as the byte 0, the decoder maps the
byte 0 back to 256, and every byte 1..255 stands for itself in both
directions. -/
theorem C3_dim_collapse :
    (∀ d : List Nat, d.length = 32 →
      ∃ parsed : ParsedIco,
        icoRoundTrip (([⟨256, 256, d⟩] : List IcoImage).map icoInput)
          = .ok parsed
        ∧ parsed.images.map (fun im => (im.width, im.height)) = [(256, 256)])
    ∧ icoDimByte 256 = 0 ∧ icoDimByte 512 = 0
    ∧ icoDecodeDim 0 = 256
    ∧ (∀ b : Nat, 1 ≤ b → b ≤ 255 → icoDimByte b = b ∧ icoDecodeDim b = b) := by
  refine ⟨?_, rfl, rfl, rfl, ?_⟩
  · intro d hd
    have htot : icoTotalSize [(⟨256, 256, d⟩ : IcoImage)] < 2 ^ 32 := by
      simp only [icoTotalSize, icoBody, List.append_nil, List.length_cons,
        List.length_nil]
      omega
    refine ⟨⟨[icoParsedOf ⟨256, 256, d⟩]⟩, ?_, rfl⟩
    rw [icoRoundTrip, compileIco_map_icoInput _ (by simp)]
    show parseIco (compileIcoCore [⟨256, 256, d⟩])
      = Except.ok ⟨[icoParsedOf ⟨256, 256, d⟩]⟩
    exact parseIco_compileIcoCore [⟨256, 256, d⟩] (by simp) (by simp) htot
  · intro b h1 h2
    exact ⟨by rw [icoDimByte, if_neg (by omega)],
      by rw [icoDecodeDim, if_neg (by omega)]⟩

/-- C3 witness: the 256 collapse at a concrete 32-byte payload, and the
identity mapping at the byte 255. -/
theorem C3_witness :
    (∃ parsed : ParsedIco,
      icoRoundTrip (([⟨256, 256, List.replicate 32 9⟩] : List IcoImage).map icoInput)
        = .ok parsed
      ∧ parsed.images.map (fun im => (im.width, im.height)) = [(256, 256)])
    ∧ icoDimByte 255 = 255 ∧ icoDecodeDim 255 = 255 :=
  ⟨C3_dim_collapse.1 (List.replicate 32 9) (by decide),
   (C3_dim_collapse.2.2.2.2 255 (by decide) (by decide)).1,
   (C3_dim_collapse.2.2.2.2 255 (by decide) (by decide)).2⟩

end Icor

namespace Icor

/-! ## Claim C4 -/


/-- C4: after validation, compileIcns silently drops exactly the images
with an unrecognized size or empty payload, keeps the rest in order, and
fails with NoValidImages exactly when nothing survives; in particular a
999-sized image beside a valid 32-sized one is dropped without error, and
alone it is fatal.  The success conclusions carry the bound under which
the surviving chunks and the total fit the 32-bit length fields the
source writes. -/
theorem C4_permissive_filter :
    (∀ images : List ImageInput,
      validateImages images [.size, .data] = .ok () →
      (icnsKept images = [] → compileIcns images = .error .noValidImages)
      ∧ (icnsKept images ≠ [] → icnsTotalSize (icnsKept images) < 2 ^ 32 →
          compileIcns images = .ok (icnsBytes (icnsKept images))))
    ∧ (∀ X Y : List Nat, Y ≠ [] → Y.length + 16 < 2 ^ 32 →
        compileIcns [icnsInput ⟨999, X⟩, icnsInput ⟨32, Y⟩]
          = .ok (icnsBytes [⟨32, Y⟩]))
    ∧ (∀ X : List Nat,
        compileIcns [icnsInput ⟨999, X⟩] = .error .noValidImages) := by
  have hgen : ∀ images : List ImageInput,
      validateImages images [.size, .data] = .ok () →
      (icnsKept images = [] → compileIcns images = .error .noValidImages)
      ∧ (icnsKept images ≠ [] → icnsTotalSize (icnsKept images) < 2 ^ 32 →
          compileIcns images = .ok (icnsBytes (icnsKept images))) := by
    intro images hv
    rw [compileIcns, hv]
    constructor
    · intro h
      show (if ((images.map ImageInput.toIcns).filter icnsKeep).length = 0
          then Except.error IcorError.noValidImages
          else Except.ok (icnsBytes ((images.map ImageInput.toIcns).filter icnsKeep)))
        = Except.error IcorError.noValidImages
      have h0 : (List.filter icnsKeep (images.map ImageInput.toIcns)).length = 0 :=
        List.length_eq_zero.mpr h
      rw [if_pos h0]
    · intro h htot
      show (if ((images.map ImageInput.toIcns).filter icnsKeep).length = 0
          then Except.error IcorError.noValidImages
          else Except.ok (icnsBytes ((images.map ImageInput.toIcns).filter icnsKeep)))
        = Except.ok (icnsBytes (icnsKept images))
      have h0 : ¬ (List.filter icnsKeep (images.map ImageInput.toIcns)).length = 0 :=
        fun hl => h (List.length_eq_zero.mp hl)
      rw [if_neg h0]
      rfl
  refine ⟨hgen, ?_, ?_⟩
  · intro X Y hY hYsize
    have hy : 0 < Y.length := List.length_pos.mpr hY
    have hfil : icnsKept [icnsInput ⟨999, X⟩, icnsInput ⟨32, Y⟩] = [⟨32, Y⟩] := by
      show List.filter icnsKeep [(⟨999, X⟩ : IcnsImage), ⟨32, Y⟩] = [⟨32, Y⟩]
      simp [List.filter_cons, icnsKeep, sizeToType, hy]
    have htot : icnsTotalSize [(⟨32, Y⟩ : IcnsImage)] < 2 ^ 32 := by
      have h1 : (icnsChunkBytes (⟨32, Y⟩ : IcnsImage)).length = Y.length + 8 :=
        length_icnsChunkBytes _ "icp4" rfl
      simp only [icnsTotalSize, icnsChunksBytes, List.length_append,
        List.length_nil, h1]
      omega
    have h2 := (hgen [icnsInput ⟨999, X⟩, icnsInput ⟨32, Y⟩] rfl).2
      (by rw [hfil]; simp) (by rw [hfil]; exact htot)
    rw [hfil] at h2
    exact h2
  · intro X
    exact (hgen [icnsInput ⟨999, X⟩] rfl).1 rfl

/-- C4 witness: the filter at concrete one-byte payloads. -/
theorem C4_witness :
    compileIcns [icnsInput ⟨999, [5]⟩, icnsInput ⟨32, [6]⟩]
      = .ok (icnsBytes [⟨32, [6]⟩])
    ∧ compileIcns [icnsInput ⟨999, [5]⟩] = .error .noValidImages :=
  ⟨C4_permissive_filter.2.1 [5] [6] (by decide) (by decide),
   C4_permissive_filter.2.2 [5]⟩

/-! ## Claim C5 -/


/-- C5: decoding a buffer the encoder produced and re-encoding the decoded
images from the exposed metadata and payload views reproduces the buffer
byte for byte, for both formats. -/
theorem C5_reencode_idempotent :
    (∀ imgs : List IcoImage, imgs ≠ [] → imgs.length ≤ 65535 →
      (∀ im ∈ imgs, validIcoDim im.width ∧ validIcoDim im.height) →
      icoTotalSize imgs < 2 ^ 32 →
      ∃ buf parsed, compileIco (imgs.map icoInput) = .ok buf
        ∧ parseIco buf = .ok parsed
        ∧ compileIco (parsed.images.map
            (fun im => icoInput ⟨im.width, im.height, im.data⟩)) = .ok buf)
    ∧ (∀ imgs : List IcnsImage, imgs ≠ [] →
      (∀ im ∈ imgs, (sizeToType im.size).isSome ∧ im.data ≠ []) →
      icnsTotalSize imgs < 2 ^ 32 →
      ∃ buf parsed, compileIcns (imgs.map icnsInput) = .ok buf
        ∧ parseIcns buf = .ok parsed
        ∧ compileIcns (parsed.images.map
            (fun c => icnsInput ⟨c.size.getD 0, c.data⟩)) = .ok buf) := by
  constructor
  · intro imgs hne hcount hdims htot
    refine ⟨compileIcoCore imgs, ⟨imgs.map icoParsedOf⟩,
      compileIco_map_icoInput imgs hne,
      parseIco_compileIcoCore imgs hne hcount htot, ?_⟩
    have hmm : (imgs.map icoParsedOf).map
        (fun im => icoInput (⟨im.width, im.height, im.data⟩ : IcoImage))
        = (imgs.map icoReDim).map icoInput := by
      rw [List.map_map, List.map_map]
      rfl
    show compileIco ((imgs.map icoParsedOf).map
        (fun im => icoInput (⟨im.width, im.height, im.data⟩ : IcoImage)))
      = Except.ok (compileIcoCore imgs)
    rw [hmm, compileIco_map_icoInput _ (by simp [hne]), compileIcoCore_reDim]
  · intro imgs hne hvd htot
    have hval : ∀ im ∈ imgs, (sizeToType im.size).isSome :=
      fun im h => (hvd im h).1
    have hkeep : ∀ im ∈ imgs, icnsKeep im = true := by
      intro im h
      have h1 := (hvd im h).1
      have h2 : 0 < im.data.length := List.length_pos.mpr (hvd im h).2
      simp [icnsKeep, h1, h2]
    refine ⟨icnsBytes imgs, ⟨imgs.map icnsParsedOf⟩,
      compileIcns_map_icnsInput imgs hne hkeep,
      parseIcns_icnsBytes imgs hval htot, ?_⟩
    have hmm : (imgs.map icnsParsedOf).map
        (fun c => icnsInput (⟨c.size.getD 0, c.data⟩ : IcnsImage))
        = imgs.map icnsInput := by
      rw [List.map_map]
      rfl
    show compileIcns ((imgs.map icnsParsedOf).map
        (fun c => icnsInput (⟨c.size.getD 0, c.data⟩ : IcnsImage)))
      = Except.ok (icnsBytes imgs)
    rw [hmm, compileIcns_map_icnsInput imgs hne hkeep]

/-- C5 witness: ICO with a 512 width (stored as byte 0, decoded as 256,
re-stored as byte 0) and ICNS with size 16. -/
theorem C5_witness :
    (∃ buf parsed,
      compileIco (([⟨512, 2, [3]⟩] : List IcoImage).map icoInput) = .ok buf
      ∧ parseIco buf = .ok parsed
      ∧ compileIco (parsed.images.map
          (fun im => icoInput ⟨im.width, im.height, im.data⟩)) = .ok buf)
    ∧ (∃ buf parsed,
      compileIcns (([⟨16, [4]⟩] : List IcnsImage).map icnsInput) = .ok buf
      ∧ parseIcns buf = .ok parsed
      ∧ compileIcns (parsed.images.map
          (fun c => icnsInput ⟨c.size.getD 0, c.data⟩)) = .ok buf) :=
  ⟨C5_reencode_idempotent.1 [⟨512, 2, [3]⟩] (by decide) (by decide) (by decide)
      (by decide),
   C5_reencode_idempotent.2 [⟨16, [4]⟩] (by decide) (by decide) (by decide)⟩

/-! ## Claim C6 -/

/-- C6 counterexample: calling encodeIcns with a single image that has
width and height but no data fails naming field size, not data, because
size comes first in its required-field list and is also absent. -/
theorem C6_counterexample :
    compileIcns [⟨some 64, some 64, none, none⟩]
      = .error (.missingField 0 .size)
    ∧ compileIcns [⟨some 64, some 64, none, none⟩]
      ≠ .error (.missingField 0 .data) :=
  ⟨rfl, by
    intro hEq
    rw [show compileIcns [(⟨some 64, some 64, none, none⟩ : ImageInput)]
        = Except.error (IcorError.missingField 0 FieldName.size) from rfl] at hEq
    injection hEq with h1
    injection h1 with h2 h3
    exact FieldName.noConfusion h3⟩

/-- C6 (amended): with one image that has width and height but no data,
encodeIco fails naming index 0 and field data, while encodeIcns fails
naming index 0 and field size (the first of its required fields that is
absent); in general the validator reports the first image with a missing
field, naming the first missing name in required-field order, before the
data-type check for that image. -/
theorem C6_validator :
    compileIco [⟨some 64, some 64, none, none⟩]
      = .error (.missingField 0 .data)
    ∧ compileIcns [⟨some 64, some 64, none, none⟩]
      = .error (.missingField 0 .size)
    ∧ ∀ (pre : List ImageInput) (img : ImageInput) (post : List ImageInput)
        (props : List FieldName) (p : FieldName),
        (∀ im ∈ pre, findMissing im props = none ∧ im.isBufferData = true) →
        findMissing img props = some p →
        validateImages (pre ++ img :: post) props
          = .error (.missingField pre.length p) := by
  refine ⟨rfl, rfl, ?_⟩
  intro pre img post props p hpre hmiss
  rw [validateImages,
    if_neg (by rw [List.length_append, List.length_cons]; omega)]
  have h := validateFrom_missing 0 pre img post props p hpre hmiss
  simpa using h

/-- C6 witness: a valid image, then one missing height (though its data is
present and not even a buffer, the missing field wins), reported at
index 1. -/
theorem C6_witness :
    validateImages
      (([⟨some 1, some 1, some 16, some (.buf [1])⟩] : List ImageInput)
        ++ (⟨some 2, none, none, some .other⟩ : ImageInput)
          :: [⟨none, none, none, none⟩])
      [.height, .data]
      = .error (.missingField 1 .height) :=
  C6_validator.2.2 [⟨some 1, some 1, some 16, some (.buf [1])⟩]
    ⟨some 2, none, none, some .other⟩ [⟨none, none, none, none⟩]
    [.height, .data] .height (by decide) (by decide)

end Icor

namespace Icor

/-! ## Claim C7 -/

/-- C7: decodeIco checks, in order: short header, reserved field, image
type, zero count, truncated directory; then the extraction loop fails at
the first entry whose data range leaves the buffer and otherwise returns
a view of exactly that byte range per entry. -/
theorem C7_parseIco_errors (buf : List Nat) :
    (buf.length < 6 → parseIco buf = .error .icoHeaderTooSmall)
    ∧ (6 ≤ buf.length → readUInt16LE buf 0 ≠ 0 →
        parseIco buf = .error .invalidReservedField)
    ∧ (6 ≤ buf.length → readUInt16LE buf 0 = 0 → readUInt16LE buf 2 ≠ 1 →
        parseIco buf = .error .invalidImageType)
    ∧ (6 ≤ buf.length → readUInt16LE buf 0 = 0 → readUInt16LE buf 2 = 1 →
        readUInt16LE buf 4 = 0 → parseIco buf = .error .noImages)
    ∧ (6 ≤ buf.length → readUInt16LE buf 0 = 0 → readUInt16LE buf 2 = 1 →
        readUInt16LE buf 4 ≠ 0 → buf.length < 6 + readUInt16LE buf 4 * 16 →
        parseIco buf = .error .directoryTruncated)
    ∧ (6 ≤ buf.length → readUInt16LE buf 0 = 0 → readUInt16LE buf 2 = 1 →
        readUInt16LE buf 4 ≠ 0 → ¬ buf.length < 6 + readUInt16LE buf 4 * 16 →
        parseIco buf = Except.map (fun images => ParsedIco.mk images)
          (icoImagesOf buf (readEntriesAux buf 0 (readUInt16LE buf 4))))
    ∧ (∀ (pre : List IcoDirEntry) (e : IcoDirEntry) (post : List IcoDirEntry),
        (∀ d ∈ pre, d.dataOffset + d.dataSize ≤ buf.length) →
        e.dataOffset + e.dataSize > buf.length →
        icoImagesOf buf (pre ++ e :: post) = .error .imageDataOutOfBounds)
    ∧ (∀ entries : List IcoDirEntry,
        (∀ d ∈ entries, d.dataOffset + d.dataSize ≤ buf.length) →
        icoImagesOf buf entries = .ok (entries.map (fun e =>
          { width := e.width, height := e.height, bpp := e.bpp,
            dataSize := e.dataSize,
            data := (buf.drop e.dataOffset).take e.dataSize }))) := by
  refine ⟨?_, ?_, ?_, ?_, ?_, ?_, icoImagesOf_oob buf, icoImagesOf_ok buf⟩
  · intro h
    rw [parseIco, if_pos h]
  · intro h6 hr
    rw [parseIco, if_neg (by omega), if_pos hr]
  · intro h6 h0 h2
    rw [parseIco, if_neg (by omega), if_neg (by simp [h0]), if_pos h2]
  · intro h6 h0 h2 h4
    rw [parseIco, if_neg (by omega), if_neg (by simp [h0]),
      if_neg (by simp [h2]), if_pos h4]
  · intro h6 h0 h2 h4 h5
    rw [parseIco, if_neg (by omega), if_neg (by simp [h0]),
      if_neg (by simp [h2]), if_neg (by simp [h4]), if_pos h5]
  · intro h6 h0 h2 h4 h5
    rw [parseIco, if_neg (by omega), if_neg (by simp [h0]),
      if_neg (by simp [h2]), if_neg (by simp [h4]), if_neg h5]
    cases hi : icoImagesOf buf (readEntriesAux buf 0 (readUInt16LE buf 4)) <;>
      simp [Except.map]

/-- C7 witness: each header error at a small concrete buffer, and both
branches of the extraction loop. -/
theorem C7_witness :
    parseIco [0, 0, 0] = .error .icoHeaderTooSmall
    ∧ parseIco [9, 9, 1, 0, 1, 0] = .error .invalidReservedField
    ∧ parseIco [0, 0, 9, 0, 1, 0] = .error .invalidImageType
    ∧ parseIco [0, 0, 1, 0, 0, 0] = .error .noImages
    ∧ parseIco [0, 0, 1, 0, 2, 0] = .error .directoryTruncated
    ∧ icoImagesOf [0, 0, 1, 0] ([] ++ ⟨1, 1, 0, 0, 1, 32, 5, 0⟩ :: [])
        = .error .imageDataOutOfBounds
    ∧ icoImagesOf [0, 0, 1, 0] [⟨1, 1, 0, 0, 1, 32, 2, 1⟩]
        = .ok [⟨1, 1, 32, 2, [0, 1]⟩] :=
  ⟨(C7_parseIco_errors [0, 0, 0]).1 (by decide),
   (C7_parseIco_errors [9, 9, 1, 0, 1, 0]).2.1 (by decide) (by decide),
   (C7_parseIco_errors [0, 0, 9, 0, 1, 0]).2.2.1 (by decide) (by decide)
     (by decide),
   (C7_parseIco_errors [0, 0, 1, 0, 0, 0]).2.2.2.1 (by decide) (by decide)
     (by decide) (by decide),
   (C7_parseIco_errors [0, 0, 1, 0, 2, 0]).2.2.2.2.1 (by decide) (by decide)
     (by decide) (by decide) (by decide),
   (C7_parseIco_errors [0, 0, 1, 0]).2.2.2.2.2.2.1 []
     ⟨1, 1, 0, 0, 1, 32, 5, 0⟩ [] (by decide) (by decide),
   by
    have h := (C7_parseIco_errors [0, 0, 1, 0]).2.2.2.2.2.2.2
      [⟨1, 1, 0, 0, 1, 32, 2, 1⟩] (by decide)
    simpa using h⟩

/-! ## Claim C8 -/

/-- C8: decodeIcns fails on a short buffer, a wrong magic, and a declared
size past the buffer; the chunk loop, entered while the offset is below
the declared size, fails when fewer than 8 bytes remain in the buffer,
when a declared chunk length is below 8, and when a chunk overruns the
buffer; otherwise it emits the chunk, whose size is the table lookup of
its tag, and unknown tags map to none rather than an error. -/
theorem C8_parseIcns_errors (buf : List Nat) :
    (buf.length < 8 → parseIcns buf = .error .icnsHeaderTooSmall)
    ∧ (8 ≤ buf.length → asciiDecode (buf.take 4) ≠ "icns" →
        parseIcns buf = .error .invalidMagic)
    ∧ (8 ≤ buf.length → asciiDecode (buf.take 4) = "icns" →
        readUInt32BE buf 4 > buf.length →
        parseIcns buf = .error .declaredSizeExceedsBuffer)
    ∧ (8 ≤ buf.length → asciiDecode (buf.take 4) = "icns" →
        ¬ readUInt32BE buf 4 > buf.length →
        parseIcns buf = Except.map (fun images => ParsedIcns.mk images)
          (parseIcnsChunksFuel buf (readUInt32BE buf 4) (readUInt32BE buf 4) 8))
    ∧ (∀ totalSize fuel offset : Nat,
        (offset < totalSize → offset + 8 > buf.length →
          parseIcnsChunksFuel buf totalSize (fuel + 1) offset
            = .error .chunkHeaderTruncated)
        ∧ (offset < totalSize → ¬ offset + 8 > buf.length →
            readUInt32BE (buf.drop offset) 4 < 8 →
            parseIcnsChunksFuel buf totalSize (fuel + 1) offset
              = .error (.invalidChunkLength
                  (asciiDecode ((buf.drop offset).take 4))))
        ∧ (offset < totalSize → ¬ offset + 8 > buf.length →
            ¬ readUInt32BE (buf.drop offset) 4 < 8 →
            offset + readUInt32BE (buf.drop offset) 4 > buf.length →
            parseIcnsChunksFuel buf totalSize (fuel + 1) offset
              = .error .chunkDataOutOfBounds)
        ∧ (offset < totalSize → ¬ offset + 8 > buf.length →
            ¬ readUInt32BE (buf.drop offset) 4 < 8 →
            ¬ offset + readUInt32BE (buf.drop offset) 4 > buf.length →
            parseIcnsChunksFuel buf totalSize (fuel + 1) offset
              = Except.map
                  (fun rest =>
                    { chunkType := asciiDecode ((buf.drop offset).take 4)
                    , size := typeToSize (asciiDecode ((buf.drop offset).take 4))
                    , data := ((buf.drop offset).drop 8).take
                        (readUInt32BE (buf.drop offset) 4 - 8) } :: rest)
                  (parseIcnsChunksFuel buf totalSize fuel
                    (offset + readUInt32BE (buf.drop offset) 4))))
    ∧ (∀ t : String,
        t ∉ (["icp3", "icp4", "icp6", "ic07", "ic08", "ic09", "ic10"]
          : List String) →
        typeToSize t = none) := by
  refine ⟨?_, ?_, ?_, ?_, ?_, ?_⟩
  · intro h
    rw [parseIcns, if_pos h]
  · intro h8 hm
    rw [parseIcns, if_neg (by omega), if_pos hm]
  · intro h8 hm hgt
    rw [parseIcns, if_neg (by omega), if_neg (by simp [hm]), if_pos hgt]
  · intro h8 hm hle
    rw [parseIcns, if_neg (by omega), if_neg (by simp [hm]), if_neg hle]
    cases hi : parseIcnsChunksFuel buf (readUInt32BE buf 4)
        (readUInt32BE buf 4) 8 <;> simp [Except.map]
  · intro totalSize fuel offset
    refine ⟨?_, ?_, ?_, ?_⟩
    · intro hlt hh
      simp only [parseIcnsChunksFuel]
      rw [if_pos hlt, if_pos hh]
    · intro hlt hh hcl
      simp only [parseIcnsChunksFuel]
      rw [if_pos hlt, if_neg hh, if_pos hcl]
    · intro hlt hh hcl hob
      simp only [parseIcnsChunksFuel]
      rw [if_pos hlt, if_neg hh, if_neg hcl, if_pos hob]
    · intro hlt hh hcl hob
      simp only [parseIcnsChunksFuel]
      rw [if_pos hlt, if_neg hh, if_neg hcl, if_neg hob]
      cases hi : parseIcnsChunksFuel buf totalSize fuel
          (offset + readUInt32BE (buf.drop offset) 4) <;> simp [Except.map]
  · intro t ht
    rw [typeToSize]
    split_ifs with h1 h2 h3 h4 h5 h6 h7
    · exact absurd (by simp [h1]) ht
    · exact absurd (by simp [h2]) ht
    · exact absurd (by simp [h3]) ht
    · exact absurd (by simp [h4]) ht
    · exact absurd (by simp [h5]) ht
    · exact absurd (by simp [h6]) ht
    · exact absurd (by simp [h7]) ht
    · rfl

/-- C8 witness: each decoder error at a concrete buffer, the loop step,
and an unknown tag mapping to none. -/
theorem C8_witness :
    parseIcns [1, 2, 3] = .error .icnsHeaderTooSmall
    ∧ parseIcns (tagBytes "ABCD" ++ [0, 0, 0, 8]) = .error .invalidMagic
    ∧ parseIcns (tagBytes "icns" ++ [0, 0, 0, 99]) = .error .declaredSizeExceedsBuffer
    ∧ parseIcnsChunksFuel (tagBytes "icns" ++ [0, 0, 0, 10] ++ [0, 0]) 10 1 8
        = .error .chunkHeaderTruncated
    ∧ parseIcnsChunksFuel
        (tagBytes "icns" ++ [0, 0, 0, 16] ++ tagBytes "icp4" ++ [0, 0, 0, 3]) 16 1 8
        = .error (.invalidChunkLength "icp4")
    ∧ parseIcnsChunksFuel
        (tagBytes "icns" ++ [0, 0, 0, 16] ++ tagBytes "icp4" ++ [0, 0, 0, 50]) 16 1 8
        = .error .chunkDataOutOfBounds
    ∧ typeToSize "ABCD" = none :=
  ⟨(C8_parseIcns_errors [1, 2, 3]).1 (by decide),
   (C8_parseIcns_errors _).2.1 (by decide) (by decide),
   (C8_parseIcns_errors _).2.2.1 (by decide) (by decide) (by decide),
   ((C8_parseIcns_errors (tagBytes "icns" ++ [0, 0, 0, 10] ++ [0, 0])).2.2.2.2.1
     10 0 8).1 (by decide) (by decide),
   by
    have h := ((C8_parseIcns_errors
      (tagBytes "icns" ++ [0, 0, 0, 16] ++ tagBytes "icp4" ++ [0, 0, 0, 3])).2.2.2.2.1
      16 0 8).2.1 (by decide) (by decide) (by decide)
    simpa using h,
   ((C8_parseIcns_errors
     (tagBytes "icns" ++ [0, 0, 0, 16] ++ tagBytes "icp4" ++ [0, 0, 0, 50])).2.2.2.2.1
     16 0 8).2.2.1 (by decide) (by decide) (by decide) (by decide),
   (C8_parseIcns_errors []).2.2.2.2.2 "ABCD" (by decide)⟩

/-! ## Claim C9 -/

/-- Every chunk contributes at most the total chunk bytes. -/
theorem chunk_len_le : ∀ (l : List IcnsImage) (im : IcnsImage), im ∈ l →
    (icnsChunkBytes im).length ≤ (icnsChunksBytes l).length
  | [], _, h => by simp at h
  | x :: rest, im, h => by
    rw [icnsChunksBytes, List.length_append]
    rcases List.mem_cons.mp h with h | h
    · subst h; omega
    · have := chunk_len_le rest im h; omega

/-- C9: in every buffer compileIcns returns, the big-endian length field
of each chunk reads back as its payload length plus 8, the total size
field of the header reads back as the buffer length, and the buffer length is 8
plus the summed chunk lengths. -/
theorem C9_icns_invariants (images : List ImageInput) (buf : List Nat)
    (henc : compileIcns images = .ok buf)
    (hsize : icnsTotalSize (icnsKept images) < 2 ^ 32) :
    (∀ im ∈ icnsKept images,
      readUInt32BE (icnsChunkBytes im) 4 = im.data.length + 8
      ∧ (icnsChunkBytes im).length = im.data.length + 8)
    ∧ readUInt32BE buf 4 = buf.length
    ∧ buf.length = 8 + (icnsChunksBytes (icnsKept images)).length := by
  rw [compileIcns] at henc
  cases hv : validateImages images [.size, .data] with
  | error e =>
    rw [hv] at henc
    exact absurd henc (by simp)
  | ok u =>
    rw [hv] at henc
    have henc' : (if (icnsKept images).length = 0
        then Except.error IcorError.noValidImages
        else Except.ok (icnsBytes (icnsKept images))) = Except.ok buf := henc
    by_cases hk : (icnsKept images).length = 0
    · rw [if_pos hk] at henc'
      exact absurd henc' (by simp)
    · rw [if_neg hk] at henc'
      injection henc' with hb
      subst hb
      refine ⟨?_, ?_, ?_⟩
      · intro im hm
        have hkeepm : icnsKeep im = true := List.of_mem_filter hm
        have hksome : (sizeToType im.size).isSome := by
          rw [icnsKeep, Bool.and_eq_true] at hkeepm
          exact hkeepm.1
        obtain ⟨tag, htag⟩ := Option.isSome_iff_exists.mp hksome
        have hlen := length_icnsChunkBytes im tag htag
        have hle := chunk_len_le (icnsKept images) im hm
        have h8 : icnsTotalSize (icnsKept images)
            = 8 + (icnsChunksBytes (icnsKept images)).length := rfl
        have hbound : im.data.length + 8 < 2 ^ 32 := by omega
        refine ⟨?_, hlen⟩
        have hsp : icnsChunkBytes im
            = tagBytes tag ++ (u32be (im.data.length + 8) ++ im.data) := by
          rw [icnsChunkBytes, htag]
          simp only [Option.getD_some, List.append_assoc]
        rw [hsp, readUInt32BE_append4 _ _ (tag_facts im.size tag htag).1,
          readUInt32BE_u32be]
        exact Nat.mod_eq_of_lt hbound
      · have hr : readUInt32BE (icnsBytes (icnsKept images)) 4
            = icnsTotalSize (icnsKept images) := by
          rw [icnsBytes, List.append_assoc,
            readUInt32BE_append4 (tagBytes "icns") _ rfl, readUInt32BE_u32be]
          exact Nat.mod_eq_of_lt hsize
        rw [hr, length_icnsBytes]
      · rw [length_icnsBytes]
        rfl

/-- C9 witness: the invariants on a one-chunk encoder run. -/
theorem C9_witness :
    (∀ im ∈ icnsKept [icnsInput ⟨32, [7]⟩],
      readUInt32BE (icnsChunkBytes im) 4 = im.data.length + 8
      ∧ (icnsChunkBytes im).length = im.data.length + 8)
    ∧ readUInt32BE (icnsBytes [(⟨32, [7]⟩ : IcnsImage)]) 4
        = (icnsBytes [(⟨32, [7]⟩ : IcnsImage)]).length
    ∧ (icnsBytes [(⟨32, [7]⟩ : IcnsImage)]).length
        = 8 + (icnsChunksBytes (icnsKept [icnsInput ⟨32, [7]⟩])).length :=
  C9_icns_invariants [icnsInput ⟨32, [7]⟩] (icnsBytes [⟨32, [7]⟩]) rfl (by decide)

/-! ## Claim C10 -/

/-- C10: a buffer with the icns magic whose declared total size is at most
8 (and within the buffer) decodes successfully to zero chunks, with
getImage returning none for every size; there is no ICNS analogue of the
ICO NoImages error. -/
theorem C10_empty_icns (buf : List Nat) (hlen : 8 ≤ buf.length)
    (hmagic : asciiDecode (buf.take 4) = "icns")
    (h8 : readUInt32BE buf 4 ≤ 8) (hle : readUInt32BE buf 4 ≤ buf.length) :
    ∃ p : ParsedIcns, parseIcns buf = .ok p ∧ p.images = []
      ∧ ∀ s : Nat, p.getImage s = none := by
  refine ⟨⟨[]⟩, ?_, rfl, fun s => rfl⟩
  rw [parseIcns, if_neg (by omega), if_neg (by simp [hmagic]),
    if_neg (by omega)]
  have hempty : parseIcnsChunksFuel buf (readUInt32BE buf 4)
      (readUInt32BE buf 4) 8 = .ok [] := by
    cases ht : readUInt32BE buf 4 with
    | zero => rfl
    | succ n =>
      simp only [parseIcnsChunksFuel]
      rw [if_neg (by omega)]
  rw [hempty]

/-- C10 witness: the 8-byte file icns with declared size 8. -/
theorem C10_witness :
    ∃ p : ParsedIcns, parseIcns (tagBytes "icns" ++ [0, 0, 0, 8]) = .ok p
      ∧ p.images = [] ∧ ∀ s : Nat, p.getImage s = none :=
  C10_empty_icns (tagBytes "icns" ++ [0, 0, 0, 8]) (by decide) (by decide)
    (by decide) (by decide)

end Icor
